import Mathlib

/-!
Verification of the doppelgangers build pipeline and interactive viewer
(`src/build.ts`): a shallow embedding of the point data model, the
per-axis normalization performed by `build`, the 2D/3D screen
projections, the selection engine (`selectPoints`, `hitTestPoint`,
`endDrag`), the render draw order, the semantic-search handler
(`doSearch`) and the cursor-anchored wheel zoom.

Numeric values are modelled as rationals (the JS code uses IEEE doubles;
all claims under scrutiny concern exact algebraic structure, not
rounding).  The transcendental functions the code calls
(`Math.cos`, `Math.sin`, `Math.sqrt`, `Math.exp`) are passed in as
explicit function parameters, so every definition stays executable and
theorems state exactly which values of those functions they use.
-/

namespace Doppelgangers

/-- A render-ready point, mirroring `interface Point` in `build.ts`.
Optional JS fields become `Option`s. -/
structure Point where
  x : ℚ
  y : ℚ
  x3d : ℚ
  y3d : ℚ
  z3d : ℚ
  title : String
  number : Option Int
  url : String
  body : String
  state : Option String
  type : Option String
  files : Option (List String)
  embedding : Option (List ℚ)
  deriving DecidableEq

/-- The four filter checkboxes (`filterPr.checked` etc.). -/
structure Filters where
  filterPr : Bool
  filterIssue : Bool
  filterOpen : Bool
  filterClosed : Bool
  deriving DecidableEq

/-- JS truthiness of an optional string field (`undefined` and `""` are
falsy, every other string truthy). -/
def truthyStr : Option String → Bool
  | none => false
  | some s => !(s == "")

/-- `const hasStates = data.some(p => p.state)`. -/
def hasStates (data : List Point) : Bool :=
  data.any fun p => truthyStr p.state

/-- `const hasTypes = data.some(p => p.type)`. -/
def hasTypes (data : List Point) : Bool :=
  data.any fun p => truthyStr p.type

/-- `isVisible` from the viewer script: a point passes when each of the
type and state filter axes accepts it; a missing attribute always
passes its axis. -/
def isVisible (ht hs : Bool) (f : Filters) (p : Point) : Bool :=
  let typeOk := !ht ||
    (p.type == some "pr" && f.filterPr) ||
    (p.type == some "issue" && f.filterIssue) ||
    !(truthyStr p.type)
  let stateOk := !hs ||
    (p.state == some "open" && f.filterOpen) ||
    (p.state == some "closed" && f.filterClosed) ||
    !(truthyStr p.state)
  typeOk && stateOk

/-! ## Point Assembler: per-axis normalization (`build`, lines 149-189)

`build` computes, for each axis of each projection,
`min = Math.min(...values)`, `max = Math.max(...values)`,
`range = max - min || 1`, and maps each value `v` to `(v - min) / range`.
The dataset is non-empty in every reachable run (`Math.min()` of an
empty spread would be `Infinity`); `listMin`/`listMax` are the spread
min/max on a non-empty list. -/

/-- `Math.min(...l)` for non-empty `l` (the `[]` case is unreachable in
the modelled pipeline and given a junk value). -/
def listMin : List ℚ → ℚ
  | [] => 0
  | v :: vs => vs.foldl min v

/-- `Math.max(...l)` for non-empty `l`. -/
def listMax : List ℚ → ℚ
  | [] => 0
  | v :: vs => vs.foldl max v

/-- `const range = max - min || 1` — JS `||` replaces a zero range by 1. -/
def axisRange (l : List ℚ) : ℚ :=
  if listMax l - listMin l = 0 then 1 else listMax l - listMin l

/-- One normalization axis of `build`: `(value - min) / range`. -/
def normalizeAxis (l : List ℚ) : List ℚ :=
  l.map fun v => (v - listMin l) / axisRange l

theorem foldl_min_le_init (l : List ℚ) : ∀ a : ℚ, l.foldl min a ≤ a := by
  induction l with
  | nil => intro a; simp
  | cons x xs ih =>
    intro a
    calc (x :: xs).foldl min a = xs.foldl min (min a x) := rfl
    _ ≤ min a x := ih (min a x)
    _ ≤ a := min_le_left a x

theorem foldl_min_le_mem (l : List ℚ) : ∀ a : ℚ, ∀ v ∈ l, l.foldl min a ≤ v := by
  induction l with
  | nil => intro a v hv; simp at hv
  | cons x xs ih =>
    intro a v hv
    rcases List.mem_cons.1 hv with h | h
    · subst h
      calc (v :: xs).foldl min a = xs.foldl min (min a v) := rfl
      _ ≤ min a v := foldl_min_le_init xs (min a v)
      _ ≤ v := min_le_right a v
    · exact ih (min a x) v h

theorem foldl_min_mem (l : List ℚ) : ∀ a : ℚ, l.foldl min a = a ∨ l.foldl min a ∈ l := by
  induction l with
  | nil => intro a; left; rfl
  | cons x xs ih =>
    intro a
    rcases ih (min a x) with h | h
    · rcases min_cases a x with ⟨hm, _⟩ | ⟨hm, _⟩
      · left; rw [show (x :: xs).foldl min a = xs.foldl min (min a x) from rfl, h, hm]
      · right
        rw [show (x :: xs).foldl min a = xs.foldl min (min a x) from rfl, h, hm]
        exact List.mem_cons_self x xs
    · right
      exact List.mem_cons.2 (Or.inr h)

theorem foldl_max_init_le (l : List ℚ) : ∀ a : ℚ, a ≤ l.foldl max a := by
  induction l with
  | nil => intro a; simp
  | cons x xs ih =>
    intro a
    calc a ≤ max a x := le_max_left a x
    _ ≤ xs.foldl max (max a x) := ih (max a x)
    _ = (x :: xs).foldl max a := rfl

theorem foldl_max_mem_le (l : List ℚ) : ∀ a : ℚ, ∀ v ∈ l, v ≤ l.foldl max a := by
  induction l with
  | nil => intro a v hv; simp at hv
  | cons x xs ih =>
    intro a v hv
    rcases List.mem_cons.1 hv with h | h
    · subst h
      calc v ≤ max a v := le_max_right a v
      _ ≤ xs.foldl max (max a v) := foldl_max_init_le xs (max a v)
      _ = (v :: xs).foldl max a := rfl
    · exact ih (max a x) v h

theorem foldl_max_mem (l : List ℚ) : ∀ a : ℚ, l.foldl max a = a ∨ l.foldl max a ∈ l := by
  induction l with
  | nil => intro a; left; rfl
  | cons x xs ih =>
    intro a
    rcases ih (max a x) with h | h
    · rcases max_cases a x with ⟨hm, _⟩ | ⟨hm, _⟩
      · left; rw [show (x :: xs).foldl max a = xs.foldl max (max a x) from rfl, h, hm]
      · right
        rw [show (x :: xs).foldl max a = xs.foldl max (max a x) from rfl, h, hm]
        exact List.mem_cons_self x xs
    · right
      exact List.mem_cons.2 (Or.inr h)

theorem listMin_le (l : List ℚ) (v : ℚ) (hv : v ∈ l) : listMin l ≤ v := by
  cases l with
  | nil => simp at hv
  | cons x xs =>
    rcases List.mem_cons.1 hv with h | h
    · subst h; exact foldl_min_le_init xs v
    · exact foldl_min_le_mem xs x v h

theorem le_listMax (l : List ℚ) (v : ℚ) (hv : v ∈ l) : v ≤ listMax l := by
  cases l with
  | nil => simp at hv
  | cons x xs =>
    rcases List.mem_cons.1 hv with h | h
    · subst h; exact foldl_max_init_le xs v
    · exact foldl_max_mem_le xs x v h

theorem listMin_mem (l : List ℚ) (hl : l ≠ []) : listMin l ∈ l := by
  cases l with
  | nil => exact absurd rfl hl
  | cons x xs =>
    rcases foldl_min_mem xs x with h | h
    · rw [listMin, h]; exact List.mem_cons_self x xs
    · exact List.mem_cons.2 (Or.inr h)

theorem listMax_mem (l : List ℚ) (hl : l ≠ []) : listMax l ∈ l := by
  cases l with
  | nil => exact absurd rfl hl
  | cons x xs =>
    rcases foldl_max_mem xs x with h | h
    · rw [listMax, h]; exact List.mem_cons_self x xs
    · exact List.mem_cons.2 (Or.inr h)

theorem listMin_le_listMax (l : List ℚ) (hl : l ≠ []) : listMin l ≤ listMax l :=
  le_trans (listMin_le l (listMax l) (listMax_mem l hl)) (le_refl _)

theorem axisRange_pos (l : List ℚ) (hl : l ≠ []) : 0 < axisRange l := by
  unfold axisRange
  split
  · norm_num
  · rename_i h
    have := listMin_le_listMax l hl
    rcases lt_or_eq_of_le this with h' | h'
    · linarith
    · exact absurd (by linarith) h

theorem foldl_min_map (g : ℚ → ℚ) (hg : ∀ a b, g (min a b) = min (g a) (g b))
    (l : List ℚ) : ∀ a : ℚ, (l.map g).foldl min (g a) = g (l.foldl min a) := by
  induction l with
  | nil => intro a; rfl
  | cons x xs ih =>
    intro a
    show (xs.map g).foldl min (min (g a) (g x)) = g (xs.foldl min (min a x))
    rw [← hg, ih]

theorem foldl_max_map (g : ℚ → ℚ) (hg : ∀ a b, g (max a b) = max (g a) (g b))
    (l : List ℚ) : ∀ a : ℚ, (l.map g).foldl max (g a) = g (l.foldl max a) := by
  induction l with
  | nil => intro a; rfl
  | cons x xs ih =>
    intro a
    show (xs.map g).foldl max (max (g a) (g x)) = g (xs.foldl max (max a x))
    rw [← hg, ih]

theorem listMin_map (g : ℚ → ℚ) (hg : ∀ a b, g (min a b) = min (g a) (g b))
    (l : List ℚ) (hl : l ≠ []) : listMin (l.map g) = g (listMin l) := by
  cases l with
  | nil => exact absurd rfl hl
  | cons x xs => exact foldl_min_map g hg xs x

theorem listMax_map (g : ℚ → ℚ) (hg : ∀ a b, g (max a b) = max (g a) (g b))
    (l : List ℚ) (hl : l ≠ []) : listMax (l.map g) = g (listMax l) := by
  cases l with
  | nil => exact absurd rfl hl
  | cons x xs => exact foldl_max_map g hg xs x

theorem normalize_min_commute (l : List ℚ) :
    ∀ a b : ℚ, (min a b - listMin l) / axisRange l =
      min ((a - listMin l) / axisRange l) ((b - listMin l) / axisRange l) := by
  intro a b
  rcases eq_or_ne l [] with h | h
  · subst h
    simp [axisRange, listMin, listMax, min_div_div_right, min_sub_sub_right]
  · rw [← min_sub_sub_right, min_div_div_right (axisRange_pos l h).le]

theorem normalize_max_commute (l : List ℚ) :
    ∀ a b : ℚ, (max a b - listMin l) / axisRange l =
      max ((a - listMin l) / axisRange l) ((b - listMin l) / axisRange l) := by
  intro a b
  rcases eq_or_ne l [] with h | h
  · subst h
    simp [axisRange, listMin, listMax, max_div_div_right, max_sub_sub_right]
  · rw [← max_sub_sub_right, max_div_div_right (axisRange_pos l h).le]

/-- After normalization the axis minimum is `0` (for a non-empty axis). -/
theorem normalizeAxis_min (l : List ℚ) (hl : l ≠ []) :
    listMin (normalizeAxis l) = 0 := by
  unfold normalizeAxis
  rw [listMin_map _ (normalize_min_commute l) l hl]
  simp

/-- After normalization the axis maximum is `1` unless all inputs were
equal. -/
theorem normalizeAxis_max (l : List ℚ) (hl : l ≠ []) (hne : listMax l ≠ listMin l) :
    listMax (normalizeAxis l) = 1 := by
  unfold normalizeAxis
  rw [listMax_map _ (normalize_max_commute l) l hl]
  have hr : axisRange l = listMax l - listMin l := by
    unfold axisRange
    split
    · rename_i h; exact absurd (by linarith) hne
    · rfl
  rw [hr, div_self (sub_ne_zero.2 hne)]

/-- When all inputs on the axis are equal, every normalized value is `0`. -/
theorem normalizeAxis_const (l : List ℚ) (heq : listMax l = listMin l) :
    ∀ v ∈ normalizeAxis l, v = 0 := by
  intro v hv
  unfold normalizeAxis at hv
  rcases List.mem_map.1 hv with ⟨w, hw, hwv⟩
  have h1 : w ≤ listMax l := le_listMax l w hw
  have h2 : listMin l ≤ w := listMin_le l w hw
  have hw0 : w = listMin l := by rw [heq] at h1; linarith
  subst hwv
  simp [hw0]

/-! ## Viewport Controller -/

/-- `view2d = { scale, offsetX, offsetY }`. -/
structure View2D where
  scale : ℚ
  offsetX : ℚ
  offsetY : ℚ
  deriving DecidableEq

/-- `view3d = { rotateX, rotateY, zoom, offsetX, offsetY }`. -/
structure View3D where
  rotateX : ℚ
  rotateY : ℚ
  zoom : ℚ
  offsetX : ℚ
  offsetY : ℚ
  deriving DecidableEq

/-- `state.mode`, `"2d"` or `"3d"`. -/
inductive Mode where
  | mode2d : Mode
  | mode3d : Mode
  deriving DecidableEq

/-- The result object of `worldToScreen` / `project3d`.  `worldToScreen`
returns only `{x, y}` in JS; its missing `depth` is never read in 2D
mode (the depth sort is guarded by the mode) and its missing `culled`
reads as falsy, so the 2D case fills `depth := 0` and `culled := false`. -/
structure ScreenPoint where
  x : ℚ
  y : ℚ
  depth : ℚ
  culled : Bool
  deriving DecidableEq

/-- `const clamp = (value, min, max) => Math.min(max, Math.max(min, value))`. -/
def clamp (value lo hi : ℚ) : ℚ :=
  min hi (max lo value)

/-- `worldToScreen` from the viewer script. -/
def worldToScreen (cw ch : ℚ) (v : View2D) (p : Point) : ScreenPoint :=
  { x := p.x * cw * v.scale + v.offsetX
    y := p.y * ch * v.scale + v.offsetY
    depth := 0
    culled := false }

/-- `project3d` from the viewer script.  `cosf`/`sinf` stand for
`Math.cos`/`Math.sin`. -/
def project3d (cosf sinf : ℚ → ℚ) (cw ch : ℚ) (v : View3D) (p : Point) : ScreenPoint :=
  let x := (p.x3d - 1/2) * v.zoom
  let y := (p.y3d - 1/2) * v.zoom
  let z := (p.z3d - 1/2) * v.zoom
  let cosY := cosf v.rotateY
  let sinY := sinf v.rotateY
  let cosX := cosf v.rotateX
  let sinX := sinf v.rotateX
  let x1 := x * cosY + z * sinY
  let z1 := -x * sinY + z * cosY
  let y1 := y * cosX - z1 * sinX
  let z2 := y * sinX + z1 * cosX
  if z2 < -(9/10) then
    { x := -1000, y := -1000, depth := z2, culled := true }
  else
    let perspective := 1 / (1 + z2 * (9/10))
    { x := x1 * perspective * cw * (7/10) + cw * (1/2) + v.offsetX
      y := y1 * perspective * ch * (7/10) + ch * (1/2) + v.offsetY
      depth := z2
      culled := false }

/-- The ambient state the viewer's projection and selection code reads:
trig implementation, canvas client size, mode, both view states, the
loaded dataset and the filter checkboxes. -/
structure Env where
  cosf : ℚ → ℚ
  sinf : ℚ → ℚ
  cw : ℚ
  ch : ℚ
  mode : Mode
  view2d : View2D
  view3d : View3D
  data : List Point
  filters : Filters

/-- `getScreenPoint` from the viewer script. -/
def getScreenPoint (env : Env) (p : Point) : ScreenPoint :=
  match env.mode with
  | Mode.mode3d => project3d env.cosf env.sinf env.cw env.ch env.view3d p
  | Mode.mode2d => worldToScreen env.cw env.ch env.view2d p

/-- Visibility of a point under the environment's filters, with the
dataset-derived `hasTypes`/`hasStates` flags the script closes over. -/
def isVisibleE (env : Env) (p : Point) : Bool :=
  isVisible (hasTypes env.data) (hasStates env.data) env.filters p

/-! ## Selection Engine -/

/-- Pair each list element with its index, starting at `k`: the indexed
view of the script's `for (let i = 0; i < data.length; i += 1)` loops. -/
def withIdx : ℕ → List Point → List (ℕ × Point)
  | _, [] => []
  | k, p :: ps => (k, p) :: withIdx (k + 1) ps

/-- The live selection rectangle `state.selectRect`. -/
structure Rect where
  x0 : ℚ
  y0 : ℚ
  x1 : ℚ
  y1 : ℚ
  deriving DecidableEq

/-- Body of the `selectPoints` loop: skip invisible points, add every
index whose projected screen position falls inside the normalized
rectangle (inclusive bounds). -/
def selectLoop (g : Point → Bool) : List (ℕ × Point) → Finset ℕ → Finset ℕ
  | [], acc => acc
  | (i, p) :: rest, acc => selectLoop g rest (if g p then insert i acc else acc)

/-- Whether a projected screen position lies inside the rectangle with
corners normalized to (left, right, top, bottom), bounds inclusive. -/
def inRect (rect : Rect) (s : ScreenPoint) : Bool :=
  decide (min rect.x0 rect.x1 ≤ s.x) && decide (s.x ≤ max rect.x0 rect.x1) &&
  decide (min rect.y0 rect.y1 ≤ s.y) && decide (s.y ≤ max rect.y0 rect.y1)

/-- `selectPoints` from the viewer script, for an already-present
rectangle: normalize corners, clear the prior selection unless
additive, then add every visible point whose screen position lies in
the rectangle. -/
def selectPoints (env : Env) (rect : Rect) (addToSelection : Bool)
    (selected : Finset ℕ) : Finset ℕ :=
  selectLoop (fun p => isVisibleE env p && inRect rect (getScreenPoint env p))
    (withIdx 0 env.data) (if addToSelection then selected else ∅)

/-- `hitTestPoint` from the viewer script: first visible point (in index
order) whose squared screen distance to the click is at most
`radius * radius`; `none` models the JS return value `-1`. -/
def hitTestPoint (env : Env) (clickX clickY radius : ℚ) : Option ℕ :=
  (withIdx 0 env.data).findSome? fun ip =>
    let screen := getScreenPoint env ip.2
    let dx := screen.x - clickX
    let dy := screen.y - clickY
    if isVisibleE env ip.2 && decide (dx * dx + dy * dy ≤ radius * radius)
    then some ip.1 else none

/-- `state.dragMode`. -/
inductive DragMode where
  | pan : DragMode
  | rotate : DragMode
  | pan3d : DragMode
  deriving DecidableEq

/-- The interaction fields of the viewer's `state` object. -/
structure UIState where
  dragging : Bool
  selecting : Bool
  dragMode : Option DragMode
  dragStart : ℚ × ℚ
  mouseDownPos : ℚ × ℚ
  selectRect : Option Rect
  selected : Finset ℕ
  addToSelection : Bool

/-- `endDrag` from the viewer script (the `mouseup` handler).  `pt` is
the canvas-relative pointer position; `targetIsCanvas` models
`event.target !== canvas`.  JS computes
`Math.hypot(dx, dy) < 3`; since both sides are non-negative this is
exactly `dx*dx + dy*dy < 9`, which keeps the model rational.  The JS
`selectPoints()` call returns immediately when `state.selectRect` is
null. -/
def endDrag (env : Env) (targetIsCanvas : Bool) (pt : ℚ × ℚ) (s : UIState) : UIState :=
  let wasSelecting := s.selecting
  let totalDistSq :=
    (pt.1 - s.mouseDownPos.1) * (pt.1 - s.mouseDownPos.1) +
    (pt.2 - s.mouseDownPos.2) * (pt.2 - s.mouseDownPos.2)
  let s1 := if s.dragging then { s with dragging := false, dragMode := none } else s
  let s2 :=
    if s1.selecting then
      { s1 with
        selecting := false
        selected :=
          match s1.selectRect with
          | none => s1.selected
          | some rect => selectPoints env rect s1.addToSelection s1.selected
        selectRect := none
        addToSelection := false }
    else s1
  if !targetIsCanvas then s2
  else if wasSelecting then s2
  else if totalDistSq < 9 then
    match hitTestPoint env pt.1 pt.2 8 with
    | none => { s2 with selected := ∅ }
    | some _ => s2
  else s2

/-! ## Render Scheduler: one paint (`render`) -/

/-- The `projected` array built by `render`: one `{index, screen}` entry
per visible point, in index order. -/
def renderProjected (env : Env) : List (ℕ × ScreenPoint) :=
  ((withIdx 0 env.data).filter fun ip => isVisibleE env ip.2).map
    fun ip => (ip.1, getScreenPoint env ip.2)

/-- Ordering used by `projected.sort((a, b) => a.screen.depth - b.screen.depth)`. -/
def depthLe (a b : ℕ × ScreenPoint) : Prop :=
  a.2.depth ≤ b.2.depth

instance : DecidableRel depthLe := fun a b => by
  unfold depthLe; infer_instance

/-- `render`'s point list after the 3D depth sort (ECMAScript
`Array.prototype.sort` is stable, and insertion sort on `≤` is the
stable sort, so ties keep index order exactly as in JS). -/
def renderSorted (env : Env) : List (ℕ × ScreenPoint) :=
  if env.mode = Mode.mode3d then List.insertionSort depthLe (renderProjected env)
  else renderProjected env

/-- The points `render` actually draws, in drawing order: the sorted
list with culled entries skipped. -/
def renderDrawn (env : Env) : List (ℕ × ScreenPoint) :=
  (renderSorted env).filter fun it => !it.2.culled

/-- `getScreenPoint` as a call against the ambient interaction state:
its JS body contains no assignment, so the call returns the projection
result and hands every piece of ambient state back unchanged. -/
def getScreenPointCall (env : Env) (ui : UIState) (p : Point) :
    ScreenPoint × Env × UIState × Point :=
  (getScreenPoint env p, env, ui, p)

/-! ## Wheel zoom (2D branch of the `wheel` handler) -/

/-- The 2D branch of the `wheel` handler: clamp the new scale into
`[0.2, 12]` and re-anchor the offset at the cursor.  `zoomFactor`
stands for the already-computed `Math.exp(-event.deltaY * 0.001)`. -/
def wheel2d (c : ℚ × ℚ) (zoomFactor : ℚ) (v : View2D) : View2D :=
  let prevScale := v.scale
  let newScale := clamp (v.scale * zoomFactor) (1/5) 12
  let scaleChange := newScale / prevScale
  { scale := newScale
    offsetX := c.1 - (c.1 - v.offsetX) * scaleChange
    offsetY := c.2 - (c.2 - v.offsetY) * scaleChange }

/-! ## Projection cache (`build`, lines 56-61) -/

/-- The branch of `build` that picks the coordinate arrays: when the
force flag is off and the projections file exists (and parses, per the
claim), the cached `coords2d`/`coords3d` are used; otherwise the
PCA+UMAP computation runs.  The boolean of the result records whether
the reduction stage executed. -/
def chooseCoords (force cacheExists : Bool)
    (cached computed : List (List ℚ) × List (List ℚ)) :
    (List (List ℚ) × List (List ℚ)) × Bool :=
  if !force && cacheExists then (cached, false) else (computed, true)

/-! ## Semantic Search Client (`doSearch`) -/

/-- One element of the `similarities` array: `{ index, sim }`. -/
structure SimEntry where
  index : ℕ
  sim : ℚ
  deriving DecidableEq

/-- Cosine similarity as `doSearch` computes it: one loop over
`queryEmb.length` accumulating `dot`, `normA`, `normB`, then
`dot / (Math.sqrt(normA) * Math.sqrt(normB))`; `sqrtf` stands for
`Math.sqrt`.  (The record vectors all share the query's length in every
reachable run.) -/
def cosineSim (sqrtf : ℚ → ℚ) (q e : List ℚ) : ℚ :=
  let dot := (List.range q.length).foldl (fun acc i => acc + q.getD i 0 * e.getD i 0) 0
  let normA := (List.range q.length).foldl (fun acc i => acc + q.getD i 0 * q.getD i 0) 0
  let normB := (List.range q.length).foldl (fun acc i => acc + e.getD i 0 * e.getD i 0) 0
  dot / (sqrtf normA * sqrtf normB)

/-- Similarity assigned to one record: `-1` when it has no stored
embedding (`if (!point.embedding) return { index, sim: -1 }`). -/
def simOfPoint (sqrtf : ℚ → ℚ) (q : List ℚ) (p : Point) : ℚ :=
  match p.embedding with
  | none => -1
  | some e => cosineSim sqrtf q e

/-- The `similarities` array: `data.map((point, index) => ...)`. -/
def simsOf (sqrtf : ℚ → ℚ) (data : List Point) (q : List ℚ) : List SimEntry :=
  (withIdx 0 data).map fun ip => ⟨ip.1, simOfPoint sqrtf q ip.2⟩

/-- Similarity of record `i` by lookup (equal to the `i`-th entry of
`simsOf`; `-1` out of range). -/
def simOf (sqrtf : ℚ → ℚ) (data : List Point) (q : List ℚ) (i : ℕ) : ℚ :=
  match data.get? i with
  | none => -1
  | some p => simOfPoint sqrtf q p

/-- Ordering of `similarities.sort((a, b) => b.sim - a.sim)`: similarity
descending; ties keep the original (ascending-index) order because the
ECMAScript sort is stable, which is exactly this total order. -/
def simLe (a b : SimEntry) : Prop :=
  b.sim < a.sim ∨ (a.sim = b.sim ∧ a.index ≤ b.index)

/-- The strict part of `simLe`. -/
def simLt (a b : SimEntry) : Prop :=
  b.sim < a.sim ∨ (a.sim = b.sim ∧ a.index < b.index)

instance : DecidableRel simLe := fun a b => by
  unfold simLe; infer_instance

instance : DecidableRel simLt := fun a b => by
  unfold simLt; infer_instance

instance : IsTotal SimEntry simLe where
  total a b := by
    unfold simLe
    rcases lt_trichotomy a.sim b.sim with h | h | h
    · exact Or.inr (Or.inl h)
    · rcases Nat.le_total a.index b.index with h' | h'
      · exact Or.inl (Or.inr ⟨h, h'⟩)
      · exact Or.inr (Or.inr ⟨h.symm, h'⟩)
    · exact Or.inl (Or.inl h)

instance : IsTrans SimEntry simLe where
  trans a b c hab hbc := by
    unfold simLe at *
    rcases hab with h1 | ⟨h1, h1'⟩ <;> rcases hbc with h2 | ⟨h2, h2'⟩
    · exact Or.inl (lt_trans h2 h1)
    · exact Or.inl (h2 ▸ h1)
    · exact Or.inl (h1 ▸ h2)
    · exact Or.inr ⟨h1.trans h2, le_trans h1' h2'⟩

/-- The selection produced by a successful search: sort descending,
take the first `Math.min(20, similarities.length)` entries, and keep
those with strictly positive similarity. -/
def doSearchSuccess (sqrtf : ℚ → ℚ) (data : List Point) (q : List ℚ) : Finset ℕ :=
  let sorted := List.insertionSort simLe (simsOf sqrtf data q)
  let topN := min 20 sorted.length
  (sorted.take topN).foldl
    (fun acc s => if 0 < s.sim then insert s.index acc else acc) ∅

/-- The state `doSearch` touches: the selection, the session-held API
credential (`null` when absent), and the alerts shown so far. -/
structure SearchState where
  selected : Finset ℕ
  apiKey : Option String
  alerts : List String

/-- `doSearch` as a function of its outcome: `query` is the trimmed
text-field value (the JS local `query = searchInput.value.trim()`, so
the emptiness guard is `query == ""`), `promptResult` the credential
prompt's return (`none` = cancel;
only consulted when no credential is held), and `fetchResult` the
embeddings request's outcome (`Except.error` covers both a rejected
fetch and a non-ok response, which `doSearch` turns into a thrown and
then caught error).  The `catch` branch alerts and discards the
credential; the `try` body replaces the selection only after a
successful response. -/
def doSearchFn (sqrtf : ℚ → ℚ) (data : List Point) (query : String)
    (promptResult : Option String) (fetchResult : Except String (List ℚ))
    (st : SearchState) : SearchState :=
  if query == "" then st
  else
    let st1 := if !truthyStr st.apiKey then { st with apiKey := promptResult } else st
    if !truthyStr st1.apiKey then st1
    else
      match fetchResult with
      | Except.ok queryEmb => { st1 with selected := doSearchSuccess sqrtf data queryEmb }
      | Except.error msg =>
        { st1 with apiKey := none, alerts := st1.alerts ++ ["Search failed: " ++ msg] }

/-! ## Helper lemmas about the loop embeddings -/

theorem withIdx_length : ∀ (l : List Point) (k : ℕ), (withIdx k l).length = l.length := by
  intro l
  induction l with
  | nil => intro k; rfl
  | cons p ps ih => intro k; simp [withIdx, ih]

theorem withIdx_get? : ∀ (l : List Point) (k j : ℕ),
    (withIdx k l).get? j = (l.get? j).map fun p => (k + j, p) := by
  intro l
  induction l with
  | nil => intro k j; simp [withIdx]
  | cons p ps ih =>
    intro k j
    cases j with
    | zero => simp [withIdx]
    | succ j' =>
      show (withIdx (k + 1) ps).get? j' = (ps.get? j').map fun p => (k + (j' + 1), p)
      rw [ih (k + 1) j']
      cases h : ps.get? j' <;> simp [h, Nat.add_assoc, Nat.add_comm 1 j']

theorem mem_withIdx (l : List Point) (k i : ℕ) (p : Point) :
    (i, p) ∈ withIdx k l ↔ ∃ j, l.get? j = some p ∧ i = k + j := by
  rw [List.mem_iff_get?]
  constructor
  · rintro ⟨j, hj⟩
    rw [withIdx_get? l k j] at hj
    cases h : l.get? j with
    | none => rw [h] at hj; simp at hj
    | some q =>
      rw [h] at hj
      simp only [Option.map_some'] at hj
      injection hj with h'
      injection h' with h1 h2
      exact ⟨j, by rw [h, h2], h1.symm⟩
  · rintro ⟨j, hj, hij⟩
    refine ⟨j, ?_⟩
    rw [withIdx_get? l k j, hj]
    simp [hij]

theorem selectLoop_mem (g : Point → Bool) :
    ∀ (l : List (ℕ × Point)) (acc : Finset ℕ) (i : ℕ),
      i ∈ selectLoop g l acc ↔ i ∈ acc ∨ ∃ p, (i, p) ∈ l ∧ g p = true := by
  intro l
  induction l with
  | nil => intro acc i; simp [selectLoop]
  | cons ip rest ih =>
    intro acc i
    rcases ip with ⟨j, p⟩
    rw [selectLoop, ih]
    by_cases hg : g p = true
    · rw [if_pos hg]
      constructor
      · rintro (h | ⟨p', hp', hg'⟩)
        · rcases Finset.mem_insert.1 h with h | h
          · exact Or.inr ⟨p, by rw [h]; exact List.mem_cons_self _ _, hg⟩
          · exact Or.inl h
        · exact Or.inr ⟨p', List.mem_cons.2 (Or.inr hp'), hg'⟩
      · rintro (h | ⟨p', hp', hg'⟩)
        · exact Or.inl (Finset.mem_insert.2 (Or.inr h))
        · rcases List.mem_cons.1 hp' with h | h
          · injection h with h1 h2
            exact Or.inl (Finset.mem_insert.2 (Or.inl h1))
          · exact Or.inr ⟨p', h, hg'⟩
    · rw [if_neg hg]
      constructor
      · rintro (h | ⟨p', hp', hg'⟩)
        · exact Or.inl h
        · exact Or.inr ⟨p', List.mem_cons.2 (Or.inr hp'), hg'⟩
      · rintro (h | ⟨p', hp', hg'⟩)
        · exact Or.inl h
        · rcases List.mem_cons.1 hp' with h | h
          · injection h with h1 h2
            rw [h2] at hg'
            exact absurd hg' hg
          · exact Or.inr ⟨p', h, hg'⟩

/-- Membership in the selection produced by `selectPoints`: the prior
selection survives exactly in additive mode, and a fresh index joins
exactly when its point is visible and projects into the normalized
rectangle. -/
theorem selectPoints_mem (env : Env) (rect : Rect) (addTo : Bool)
    (sel : Finset ℕ) (i : ℕ) :
    i ∈ selectPoints env rect addTo sel ↔
      (addTo = true ∧ i ∈ sel) ∨
      ∃ p, env.data.get? i = some p ∧ isVisibleE env p = true ∧
        inRect rect (getScreenPoint env p) = true := by
  unfold selectPoints
  rw [selectLoop_mem]
  constructor
  · rintro (h | ⟨p, hp, hg⟩)
    · cases addTo with
      | true => exact Or.inl ⟨rfl, by simpa using h⟩
      | false => simp at h
    · rcases (mem_withIdx env.data 0 i p).1 hp with ⟨j, hj, hij⟩
      rcases Bool.and_eq_true .. ▸ hg with ⟨h1, h2⟩
      exact Or.inr ⟨p, by rw [hij, Nat.zero_add]; exact hj, h1, h2⟩
  · rintro (⟨ha, hi⟩ | ⟨p, hp, h1, h2⟩)
    · subst ha
      exact Or.inl (by simpa using hi)
    · refine Or.inr ⟨p, (mem_withIdx env.data 0 i p).2 ⟨i, hp, (Nat.zero_add i).symm⟩, ?_⟩
      rw [Bool.and_eq_true]
      exact ⟨h1, h2⟩

/-! ## Helper lemmas about the similarity ranking -/

theorem simEntry_ext (a b : SimEntry) (h1 : a.index = b.index) (h2 : a.sim = b.sim) :
    a = b := by
  cases a; cases b
  simp_all

theorem simLt_irrefl (a : SimEntry) : ¬ simLt a a := by
  unfold simLt
  rintro (h | ⟨-, h⟩)
  · exact lt_irrefl _ h
  · exact lt_irrefl _ h

theorem simLt_of_simLe_of_ne (a b : SimEntry) (h : simLe a b) (hne : a ≠ b) :
    simLt a b := by
  unfold simLe at h
  unfold simLt
  rcases h with h | ⟨h1, h2⟩
  · exact Or.inl h
  · rcases Nat.lt_or_ge a.index b.index with h3 | h3
    · exact Or.inr ⟨h1, h3⟩
    · exact absurd (simEntry_ext a b (le_antisymm h2 h3) h1) hne

theorem not_simLt_of_simLe (a b : SimEntry) (h : simLe a b) : ¬ simLt b a := by
  unfold simLe at h
  unfold simLt
  rintro (h' | ⟨h1, h2⟩) <;> rcases h with h | ⟨h3, h4⟩
  · exact lt_irrefl _ (lt_trans h h')
  · exact lt_irrefl _ (h3 ▸ h')
  · exact lt_irrefl _ (h1 ▸ h)
  · exact absurd h4 (by omega)

/-- In a `simLe`-sorted duplicate-free list, the element at position `k`
has exactly `k` strict predecessors: drawing order position equals
rank. -/
theorem sorted_countP_simLt :
    ∀ (l : List SimEntry), l.Sorted simLe → l.Nodup →
      ∀ (k : ℕ) (h : k < l.length),
        l.countP (fun y => decide (simLt y (l.get ⟨k, h⟩))) = k := by
  intro l
  induction l with
  | nil => intro _ _ k h; exact absurd h (by simp)
  | cons x xs ih =>
    intro hs hn k h
    have hx : ∀ y ∈ xs, simLe x y := List.rel_of_sorted_cons hs
    have hs' : xs.Sorted simLe := List.Sorted.of_cons hs
    have hnx : x ∉ xs := (List.nodup_cons.1 hn).1
    have hn' : xs.Nodup := (List.nodup_cons.1 hn).2
    cases k with
    | zero =>
      have hget : (x :: xs).get ⟨0, h⟩ = x := rfl
      rw [hget, List.countP_cons]
      have h1 : xs.countP (fun y => decide (simLt y x)) = 0 := by
        rw [List.countP_eq_zero]
        intro y hy
        simp only [decide_eq_true_eq]
        exact not_simLt_of_simLe x y (hx y hy)
      rw [h1]
      simp [simLt_irrefl x]
    | succ k' =>
      have hk' : k' < xs.length := by simpa using h
      have hget : (x :: xs).get ⟨k' + 1, h⟩ = xs.get ⟨k', hk'⟩ := rfl
      rw [hget, List.countP_cons]
      have hmem : xs.get ⟨k', hk'⟩ ∈ xs := xs.get_mem _ _
      have hxlt : simLt x (xs.get ⟨k', hk'⟩) :=
        simLt_of_simLe_of_ne x _ (hx _ hmem) (fun he => hnx (he ▸ hmem))
      rw [ih hs' hn' k' hk']
      simp only [List.get_eq_getElem] at hxlt
      simp [hxlt]

theorem sims_eq (sqrtf : ℚ → ℚ) (data : List Point) (q : List ℚ) :
    simsOf sqrtf data q =
      (List.range data.length).map fun j => ⟨j, simOf sqrtf data q j⟩ := by
  apply List.ext
  intro j
  unfold simsOf
  rw [List.get?_map, withIdx_get? data 0 j, List.get?_map]
  rcases Nat.lt_or_ge j data.length with hj | hj
  · rw [List.get?_range hj]
    cases hd : data.get? j with
    | none => exact absurd hd (by rw [List.get?_eq_get hj]; simp)
    | some p =>
      simp only [Option.map_some']
      have : simOf sqrtf data q j = simOfPoint sqrtf q p := by
        unfold simOf; rw [hd]
      rw [this]
      simp
  · rw [List.get?_eq_none.2 (by simpa using hj), List.get?_eq_none.2 (by simpa using hj)]
    rfl

theorem sims_length (sqrtf : ℚ → ℚ) (data : List Point) (q : List ℚ) :
    (simsOf sqrtf data q).length = data.length := by
  rw [sims_eq]; simp

theorem sims_nodup (sqrtf : ℚ → ℚ) (data : List Point) (q : List ℚ) :
    (simsOf sqrtf data q).Nodup := by
  rw [sims_eq]
  exact (List.nodup_range _).map fun a b hab => by
    injection hab

theorem mem_sims (sqrtf : ℚ → ℚ) (data : List Point) (q : List ℚ) (e : SimEntry) :
    e ∈ simsOf sqrtf data q ↔
      e.index < data.length ∧ e = ⟨e.index, simOf sqrtf data q e.index⟩ := by
  rw [sims_eq, List.mem_map]
  constructor
  · rintro ⟨j, hj, hje⟩
    have hji : e.index = j := by rw [← hje]
    rw [hji]
    exact ⟨List.mem_range.1 hj, hje.symm⟩
  · rintro ⟨hlt, he⟩
    exact ⟨e.index, List.mem_range.2 hlt, he.symm⟩

/-- Rank of record `i` in the search ordering: how many records beat it,
i.e. have strictly larger similarity, or equal similarity and a smaller
index (the tie order of the stable descending sort). -/
def searchRank (sqrtf : ℚ → ℚ) (data : List Point) (q : List ℚ) (i : ℕ) : ℕ :=
  (List.range data.length).countP fun j =>
    decide (simLt ⟨j, simOf sqrtf data q j⟩ ⟨i, simOf sqrtf data q i⟩)

theorem searchFold_mem :
    ∀ (l : List SimEntry) (acc : Finset ℕ) (i : ℕ),
      i ∈ l.foldl (fun acc s => if 0 < s.sim then insert s.index acc else acc) acc ↔
        i ∈ acc ∨ ∃ e ∈ l, e.index = i ∧ 0 < e.sim := by
  intro l
  induction l with
  | nil => intro acc i; simp
  | cons e rest ih =>
    intro acc i
    rw [List.foldl_cons, ih]
    by_cases he : 0 < e.sim
    · rw [if_pos he]
      constructor
      · rintro (h | h)
        · rcases Finset.mem_insert.1 h with h | h
          · exact Or.inr ⟨e, List.mem_cons_self _ _, h.symm, he⟩
          · exact Or.inl h
        · rcases h with ⟨e', h1, h2, h3⟩
          exact Or.inr ⟨e', List.mem_cons.2 (Or.inr h1), h2, h3⟩
      · rintro (h | ⟨e', h1, h2, h3⟩)
        · exact Or.inl (Finset.mem_insert.2 (Or.inr h))
        · rcases List.mem_cons.1 h1 with h | h
          · exact Or.inl (Finset.mem_insert.2 (Or.inl (h ▸ h2).symm))
          · exact Or.inr ⟨e', h, h2, h3⟩
    · rw [if_neg he]
      constructor
      · rintro (h | ⟨e', h1, h2, h3⟩)
        · exact Or.inl h
        · exact Or.inr ⟨e', List.mem_cons.2 (Or.inr h1), h2, h3⟩
      · rintro (h | ⟨e', h1, h2, h3⟩)
        · exact Or.inl h
        · rcases List.mem_cons.1 h1 with h | h
          · exact absurd (h ▸ h3) he
          · exact Or.inr ⟨e', h, h2, h3⟩

theorem searchFold_card :
    ∀ (l : List SimEntry) (acc : Finset ℕ),
      (l.foldl (fun acc s => if 0 < s.sim then insert s.index acc else acc) acc).card ≤
        acc.card + l.length := by
  intro l
  induction l with
  | nil => intro acc; simp
  | cons e rest ih =>
    intro acc
    rw [List.foldl_cons]
    refine le_trans (ih _) ?_
    by_cases he : 0 < e.sim
    · rw [if_pos he]
      have := Finset.card_insert_le e.index acc
      simp only [List.length_cons]
      omega
    · rw [if_neg he]
      simp only [List.length_cons]
      omega

theorem countP_sims_rank (sqrtf : ℚ → ℚ) (data : List Point) (q : List ℚ) (x : SimEntry) :
    (List.insertionSort simLe (simsOf sqrtf data q)).countP (fun y => decide (simLt y x)) =
      (List.range data.length).countP fun j =>
        decide (simLt ⟨j, simOf sqrtf data q j⟩ x) := by
  rw [(List.perm_insertionSort simLe (simsOf sqrtf data q)).countP_eq, sims_eq,
    List.countP_map]
  rfl

/-- Membership in the selection a successful search builds: exactly the
records with strictly positive similarity among the first twenty of the
descending-similarity order. -/
theorem doSearchSuccess_mem (sqrtf : ℚ → ℚ) (data : List Point) (q : List ℚ) (i : ℕ) :
    i ∈ doSearchSuccess sqrtf data q ↔
      i < data.length ∧ 0 < simOf sqrtf data q i ∧ searchRank sqrtf data q i < 20 := by
  unfold doSearchSuccess
  have hperm := List.perm_insertionSort simLe (simsOf sqrtf data q)
  have hsorted := List.sorted_insertionSort simLe (simsOf sqrtf data q)
  have hnodup : (List.insertionSort simLe (simsOf sqrtf data q)).Nodup :=
    hperm.nodup_iff.2 (sims_nodup sqrtf data q)
  set S := List.insertionSort simLe (simsOf sqrtf data q) with hS
  have htake : S.take (min 20 S.length) = S.take 20 := by
    rcases Nat.le_total 20 S.length with h | h
    · rw [min_eq_left h]
    · rw [min_eq_right h, List.take_of_length_le h, List.take_of_length_le (le_refl _)]
  rw [searchFold_mem, htake]
  constructor
  · rintro (h | ⟨e, htk, hidx, hsim⟩)
    · simp at h
    · have heS : e ∈ S := List.mem_of_mem_take htk
      have heSims : e ∈ simsOf sqrtf data q := hperm.mem_iff.1 heS
      rcases (mem_sims sqrtf data q e).1 heSims with ⟨hlt, hee⟩
      rcases List.mem_take_iff_getElem.1 htk with ⟨k, hk, hke⟩
      have hk20 : k < 20 := lt_of_lt_of_le hk (le_trans (min_le_left _ _) (le_refl _))
      have hkS : k < S.length := lt_of_lt_of_le hk (min_le_right _ _)
      have hrank : S.countP (fun y => decide (simLt y (S.get ⟨k, hkS⟩))) = k :=
        sorted_countP_simLt S hsorted hnodup k hkS
      have hgete : S.get ⟨k, hkS⟩ = e := hke
      rw [hgete] at hrank
      have hxE : e = ⟨i, simOf sqrtf data q i⟩ := by rw [hee, hidx]
      refine ⟨hidx ▸ hlt, ?_, ?_⟩
      · have : e.sim = simOf sqrtf data q i := by rw [hxE]
        exact this ▸ hsim
      · unfold searchRank
        rw [← countP_sims_rank sqrtf data q, ← hxE, hrank]
        exact hk20
  · rintro ⟨hi, hsim, hrank⟩
    refine Or.inr ?_
    have hmem : (⟨i, simOf sqrtf data q i⟩ : SimEntry) ∈ simsOf sqrtf data q :=
      (mem_sims sqrtf data q _).2 ⟨hi, rfl⟩
    have hmemS : (⟨i, simOf sqrtf data q i⟩ : SimEntry) ∈ S := hperm.mem_iff.2 hmem
    rcases List.mem_iff_get.1 hmemS with ⟨⟨k, hkS⟩, hke⟩
    have hcount : S.countP (fun y => decide (simLt y (S.get ⟨k, hkS⟩))) = k :=
      sorted_countP_simLt S hsorted hnodup k hkS
    rw [hke] at hcount
    have hk20 : k < 20 := by
      unfold searchRank at hrank
      rw [← countP_sims_rank sqrtf data q, ← hS] at hrank
      omega
    refine ⟨⟨i, simOf sqrtf data q i⟩, ?_, rfl, hsim⟩
    exact List.mem_take_iff_getElem.2 ⟨k, lt_min hk20 hkS, hke⟩

/-- A successful search selects at most twenty indices. -/
theorem doSearchSuccess_card (sqrtf : ℚ → ℚ) (data : List Point) (q : List ℚ) :
    (doSearchSuccess sqrtf data q).card ≤ 20 := by
  unfold doSearchSuccess
  refine le_trans (searchFold_card _ _) ?_
  rw [Finset.card_empty, Nat.zero_add, List.length_take]
  omega

/-! ## Helper lemma about `endDrag` -/

/-- Squared pointer travel between press and release. -/
def travelSq (pt : ℚ × ℚ) (s : UIState) : ℚ :=
  (pt.1 - s.mouseDownPos.1) * (pt.1 - s.mouseDownPos.1) +
  (pt.2 - s.mouseDownPos.2) * (pt.2 - s.mouseDownPos.2)

/-- What `endDrag` does to the selection when no rectangle gesture is
active (`state.selecting` false, i.e. a Dragging gesture or a bare
click is ending): the selection is cleared exactly when the event hits
the canvas, the squared press-to-release travel is under `9` (3 px),
and the hit test at radius 8 misses; otherwise it is untouched. -/
theorem endDrag_selected_of_not_selecting (env : Env) (tc : Bool) (pt : ℚ × ℚ)
    (s : UIState) (hns : s.selecting = false) :
    (endDrag env tc pt s).selected =
      if tc = true ∧ travelSq pt s < 9 ∧ hitTestPoint env pt.1 pt.2 8 = none
      then ∅ else s.selected := by
  have hsel1 : ∀ b : Bool, (if s.dragging then { s with dragging := false, dragMode := none } else s).selecting = false := by
    intro _
    by_cases hd : s.dragging <;> simp [hd, hns]
  unfold endDrag travelSq
  by_cases hd : s.dragging <;> by_cases htc : tc <;>
    by_cases hdist : ((pt.1 - s.mouseDownPos.1) * (pt.1 - s.mouseDownPos.1) +
      (pt.2 - s.mouseDownPos.2) * (pt.2 - s.mouseDownPos.2)) < 9 <;>
    cases hh : hitTestPoint env pt.1 pt.2 8 <;>
    simp [hd, htc, hns, hdist, hh, travelSq]

/-! ## Sample data shared by the concrete witnesses -/

/-- A metadata-free point near the centre of the normalized cube. -/
def samplePointA : Point :=
  { x := 1/2, y := 1/2, x3d := 1/2, y3d := 1/2, z3d := 1/2, title := "", number := none
    url := "", body := "", state := none, type := none, files := none, embedding := none }

/-- Like `samplePointA` but at the far face of the cube (`z3d = 1`). -/
def samplePointB : Point :=
  { x := 1/2, y := 1/2, x3d := 1/2, y3d := 1/2, z3d := 1, title := "", number := none
    url := "", body := "", state := none, type := none, files := none, embedding := none }

/-- A point carrying a one-dimensional embedding, for search witnesses. -/
def samplePointE : Point :=
  { x := 1/2, y := 1/2, x3d := 1/2, y3d := 1/2, z3d := 1/2, title := "", number := none
    url := "", body := "", state := none, type := none, files := none
    embedding := some [1] }

/-- All four filter checkboxes ticked (the page's initial state). -/
def sampleFilters : Filters := ⟨true, true, true, true⟩

/-- A 2D environment over the given dataset, with the initial view
(`scale 1`, no offset) on a 1000×1000 canvas. -/
def mkEnv2d (data : List Point) : Env :=
  { cosf := fun _ => 1, sinf := fun _ => 0, cw := 1000, ch := 1000, mode := Mode.mode2d
    view2d := ⟨1, 0, 0⟩, view3d := ⟨7/20, -(3/5), 6/5, 0, 0⟩, data := data
    filters := sampleFilters }

/-! ## Claim theorems -/

/-- C2: a completed rectangle gesture with corners in arbitrary order
selects exactly the visible points whose projected screen position lies
in `[min x0 x1, max x0 x1] × [min y0 y1, max y0 y1]` (inclusive
bounds); in additive mode that set is unioned into the prior selection,
otherwise it replaces it. -/
theorem rect_selection_spec (env : Env) (rect : Rect) (addTo : Bool)
    (sel : Finset ℕ) (i : ℕ) :
    i ∈ selectPoints env rect addTo sel ↔
      (addTo = true ∧ i ∈ sel) ∨
      ∃ p, env.data.get? i = some p ∧ isVisibleE env p = true ∧
        min rect.x0 rect.x1 ≤ (getScreenPoint env p).x ∧
        (getScreenPoint env p).x ≤ max rect.x0 rect.x1 ∧
        min rect.y0 rect.y1 ≤ (getScreenPoint env p).y ∧
        (getScreenPoint env p).y ≤ max rect.y0 rect.y1 := by
  rw [selectPoints_mem]
  unfold inRect
  simp only [Bool.and_eq_true, decide_eq_true_eq, and_assoc]

/-- C4: each normalization axis maps `v` to `(v - min) / (max - min)`
with the divisor forced to `1` on a zero range; on a non-empty axis the
divisor is never zero, the normalized minimum is `0` and maximum is `1`
unless all inputs are equal, in which case every output is `0`. -/
theorem axis_normalization_spec (l : List ℚ) (hl : l ≠ []) :
    normalizeAxis l = (l.map fun v => (v - listMin l) / axisRange l) ∧
    axisRange l ≠ 0 ∧
    (listMax l = listMin l → axisRange l = 1) ∧
    (listMax l ≠ listMin l →
      listMin (normalizeAxis l) = 0 ∧ listMax (normalizeAxis l) = 1) ∧
    (listMax l = listMin l → ∀ v ∈ normalizeAxis l, v = 0) := by
  refine ⟨rfl, ne_of_gt (axisRange_pos l hl), ?_, ?_, normalizeAxis_const l⟩
  · intro h
    unfold axisRange
    rw [if_pos (by rw [h, sub_self])]
  · intro h
    exact ⟨normalizeAxis_min l hl, normalizeAxis_max l hl h⟩

theorem axis_normalization_spec_witness :
    ([(1 : ℚ), 3] ≠ ([] : List ℚ)) ∧
      (listMin (normalizeAxis [(1 : ℚ), 3]) = 0 ∧
        listMax (normalizeAxis [(1 : ℚ), 3]) = 1) :=
  ⟨by decide, (axis_normalization_spec [(1 : ℚ), 3] (by decide)).2.2.2.1 (by decide)⟩

/-- C7: the 2D wheel zoom with effective ratio
`r = newScale / prevScale` re-anchors the offset as
`offset' = c - (c - offset) * r` on each axis, and any point whose
screen position was exactly the cursor position is still projected to
the cursor position after the zoom. -/
theorem wheel2d_cursor_anchored (c : ℚ × ℚ) (zf : ℚ) (v : View2D)
    (hs : v.scale ≠ 0) :
    ((wheel2d c zf v).offsetX =
        c.1 - (c.1 - v.offsetX) * ((wheel2d c zf v).scale / v.scale) ∧
      (wheel2d c zf v).offsetY =
        c.2 - (c.2 - v.offsetY) * ((wheel2d c zf v).scale / v.scale)) ∧
    ∀ (cw ch : ℚ) (p : Point),
      (worldToScreen cw ch v p).x = c.1 → (worldToScreen cw ch v p).y = c.2 →
      (worldToScreen cw ch (wheel2d c zf v) p).x = c.1 ∧
      (worldToScreen cw ch (wheel2d c zf v) p).y = c.2 := by
  constructor
  · exact ⟨rfl, rfl⟩
  · intro cw ch p hx hy
    unfold worldToScreen at hx hy ⊢
    unfold wheel2d
    simp only at hx hy ⊢
    constructor
    · have h1 : p.x * cw * v.scale = c.1 - v.offsetX := by linarith
      field_simp
      linear_combination (clamp (v.scale * zf) (1/5) 12) * h1
    · have h2 : p.y * ch * v.scale = c.2 - v.offsetY := by linarith
      field_simp
      linear_combination (clamp (v.scale * zf) (1/5) 12) * h2

theorem wheel2d_cursor_anchored_witness :
    ((1 : ℚ) ≠ 0) ∧
      ((worldToScreen 100 100 (wheel2d (50, 50) 2 ⟨1, 0, 0⟩) samplePointA).x = 50 ∧
        (worldToScreen 100 100 (wheel2d (50, 50) 2 ⟨1, 0, 0⟩) samplePointA).y = 50) :=
  ⟨by norm_num,
    (wheel2d_cursor_anchored (50, 50) 2 ⟨1, 0, 0⟩ (by norm_num)).2 100 100 samplePointA
      (by norm_num [worldToScreen, samplePointA]) (by norm_num [worldToScreen, samplePointA])⟩

/-- C8: the screen projection is referentially pure — its output depends
only on the point, the mode and the view parameters (not on the
selection or any other interaction state), and a call returns every
piece of ambient state unchanged, so repeated calls with identical
inputs give identical outputs. -/
theorem projection_pure (env env2 : Env) (ui : UIState) (p : Point)
    (hm : env.mode = env2.mode) (hcos : env.cosf = env2.cosf)
    (hsin : env.sinf = env2.sinf) (hw : env.cw = env2.cw) (hh : env.ch = env2.ch)
    (h2 : env.view2d = env2.view2d) (h3 : env.view3d = env2.view3d) :
    (getScreenPointCall env ui p).1 = (getScreenPointCall env2 ui p).1 ∧
    (getScreenPointCall env ui p).2 = (env, ui, p) := by
  refine ⟨?_, rfl⟩
  show getScreenPoint env p = getScreenPoint env2 p
  unfold getScreenPoint
  rw [hm, hcos, hsin, hw, hh, h2, h3]

theorem projection_pure_witness :
    (getScreenPointCall (mkEnv2d []) ⟨false, false, none, (0, 0), (0, 0), none, ∅, false⟩
        samplePointA).1 =
      (getScreenPointCall (mkEnv2d []) ⟨false, false, none, (0, 0), (0, 0), none, ∅, false⟩
        samplePointA).1 ∧
    (getScreenPointCall (mkEnv2d []) ⟨false, false, none, (0, 0), (0, 0), none, ∅, false⟩
        samplePointA).2 =
      (mkEnv2d [], ⟨false, false, none, (0, 0), (0, 0), none, ∅, false⟩, samplePointA) :=
  projection_pure (mkEnv2d []) (mkEnv2d [])
    ⟨false, false, none, (0, 0), (0, 0), none, ∅, false⟩ samplePointA
    rfl rfl rfl rfl rfl rfl rfl

/-- C9: with the force flag off and an existing, parsing cache, the
build takes exactly the cached coordinate arrays and the PCA+UMAP
reduction stage does not run (the flag component of the result is
`false`). -/
theorem cache_hit_uses_cached (force cacheExists : Bool)
    (cached computed : List (List ℚ) × List (List ℚ))
    (hf : force = false) (hc : cacheExists = true) :
    chooseCoords force cacheExists cached computed = (cached, false) := by
  subst hf; subst hc; rfl

theorem cache_hit_uses_cached_witness :
    (false = false ∧ true = true) ∧
      chooseCoords false true ([[1]], [[2]]) ([[3]], [[4]]) = (([[1]], [[2]]), false) :=
  ⟨⟨rfl, rfl⟩, cache_hit_uses_cached false true ([[1]], [[2]]) ([[3]], [[4]]) rfl rfl⟩

/-- Interaction state in the middle of a plain (no-modifier) drag that
started at the origin with point `0` selected. -/
def cexDragState : UIState :=
  { dragging := true, selecting := false, dragMode := some DragMode.pan
    dragStart := (0, 0), mouseDownPos := (0, 0), selectRect := none
    selected := {0}, addToSelection := false }

/-- C3 counterexample: a pointer-up that ends a `Dragging(pan)` gesture
with press and release both at the origin (travel 0 px) over a dataset
whose only point projects to (500, 500) clears the `{0}` selection —
so ending a drag can change the selection. -/
theorem endDrag_clears_selection_cex :
    cexDragState.dragging = true ∧ cexDragState.dragMode = some DragMode.pan ∧
    cexDragState.selected = {0} ∧
    (endDrag (mkEnv2d [samplePointA]) true (0, 0) cexDragState).selected = ∅ := by
  have hht : hitTestPoint (mkEnv2d [samplePointA]) 0 0 8 = none := by
    simp [hitTestPoint, withIdx, mkEnv2d, samplePointA, getScreenPoint, worldToScreen,
      isVisibleE, isVisible, hasTypes, hasStates, truthyStr, sampleFilters]
    norm_num
  refine ⟨rfl, rfl, rfl, ?_⟩
  rw [endDrag_selected_of_not_selecting _ _ _ _ rfl,
    if_pos ⟨rfl, by norm_num [travelSq, cexDragState], hht⟩]

/-- C3 (amended): ending a Dragging gesture leaves the selection
untouched whenever the squared press-to-release travel is at least 9
(3 px), the event does not target the canvas, or the 8 px hit test
finds a point; in the remaining case — travel under 3 px on the canvas
with no point within 8 px of the release — the selection is cleared. -/
theorem drag_end_selection_change (env : Env) (tc : Bool) (pt : ℚ × ℚ)
    (s : UIState) (hd : s.dragging = true) (hns : s.selecting = false) :
    ((9 ≤ travelSq pt s ∨ tc = false ∨ hitTestPoint env pt.1 pt.2 8 ≠ none) →
      (endDrag env tc pt s).selected = s.selected) ∧
    (tc = true → travelSq pt s < 9 → hitTestPoint env pt.1 pt.2 8 = none →
      (endDrag env tc pt s).selected = ∅) := by
  rw [endDrag_selected_of_not_selecting env tc pt s hns]
  constructor
  · rintro (h | h | h)
    · rw [if_neg]
      rintro ⟨-, h9, -⟩
      linarith
    · rw [if_neg]
      rintro ⟨htc, -, -⟩
      rw [htc] at h
      exact Bool.true_eq_false ▸ h.symm ▸ (by simp at h)
    · rw [if_neg]
      rintro ⟨-, -, hh⟩
      exact h hh
  · intro htc h9 hh
    rw [if_pos ⟨htc, h9, hh⟩]

theorem drag_end_selection_change_witness :
    cexDragState.dragging = true ∧ cexDragState.selecting = false ∧
      (endDrag (mkEnv2d [samplePointA]) true (10, 0) cexDragState).selected =
        cexDragState.selected :=
  ⟨rfl, rfl,
    (drag_end_selection_change (mkEnv2d [samplePointA]) true (10, 0) cexDragState
      rfl rfl).1 (Or.inl (by norm_num [travelSq, cexDragState]))⟩

/-- C5: a successful search replaces the prior selection with at most 20
indices — exactly the records whose similarity is strictly positive and
whose rank in the descending-similarity order is below 20; records
without a stored embedding (similarity `-1`) never appear. -/
theorem search_success_selection (sqrtf : ℚ → ℚ) (data : List Point)
    (query : String) (promptRes : Option String) (emb : List ℚ) (st : SearchState)
    (hq : query ≠ "")
    (hk : truthyStr (if truthyStr st.apiKey then st.apiKey else promptRes) = true) :
    (doSearchFn sqrtf data query promptRes (Except.ok emb) st).selected.card ≤ 20 ∧
    (∀ i, i ∈ (doSearchFn sqrtf data query promptRes (Except.ok emb) st).selected ↔
      (i < data.length ∧ 0 < simOf sqrtf data emb i ∧ searchRank sqrtf data emb i < 20)) ∧
    (∀ i ∈ (doSearchFn sqrtf data query promptRes (Except.ok emb) st).selected,
      ∃ p, data.get? i = some p ∧ p.embedding ≠ none) := by
  have hq' : (query == "") = false := by
    rw [beq_eq_false_iff_ne]
    exact hq
  have hred : (doSearchFn sqrtf data query promptRes (Except.ok emb) st).selected =
      doSearchSuccess sqrtf data emb := by
    unfold doSearchFn
    rw [if_neg (by simp [hq'])]
    by_cases ht : truthyStr st.apiKey = true
    · rw [if_pos ht] at hk
      simp [ht, hk]
    · rw [if_neg ht] at hk
      simp only [Bool.not_eq_true] at ht
      simp [ht, hk]
  rw [hred]
  refine ⟨doSearchSuccess_card sqrtf data emb, fun i => doSearchSuccess_mem sqrtf data emb i, ?_⟩
  intro i hi
  rcases (doSearchSuccess_mem sqrtf data emb i).1 hi with ⟨hlen, hsim, -⟩
  cases hp : data.get? i with
  | none =>
    rw [List.get?_eq_get hlen] at hp
    simp at hp
  | some p =>
    refine ⟨p, rfl, ?_⟩
    intro hemb
    have hneg : simOf sqrtf data emb i = -1 := by
      have hp' : data[i]? = some p := by
        rw [← List.get?_eq_getElem?]
        exact hp
      simp [simOf, hp', simOfPoint, hemb]
    rw [hneg] at hsim
    norm_num at hsim

theorem search_success_selection_witness :
    (("q" : String) ≠ "") ∧ truthyStr (some "k") = true ∧
      ((doSearchFn (fun _ => 1) [samplePointE] "q" none (Except.ok [1])
          ⟨{5}, some "k", []⟩).selected.card ≤ 20 ∧
        (0 ∈ (doSearchFn (fun _ => 1) [samplePointE] "q" none (Except.ok [1])
          ⟨{5}, some "k", []⟩).selected ↔
          (0 < [samplePointE].length ∧ 0 < simOf (fun _ => 1) [samplePointE] [1] 0 ∧
            searchRank (fun _ => 1) [samplePointE] [1] 0 < 20))) := by
  refine ⟨by decide, rfl, ?_, ?_⟩
  · exact (search_success_selection (fun _ => 1) [samplePointE] "q" none [1]
      ⟨{5}, some "k", []⟩ (by decide) rfl).1
  · exact (search_success_selection (fun _ => 1) [samplePointE] "q" none [1]
      ⟨{5}, some "k", []⟩ (by decide) rfl).2.1 0

/-- C6: when the embeddings request fails, the handler leaves the
selection exactly as it was, resets the held credential to null, and
surfaces a user-visible error; the model of the handler is a total
function, mirroring that the JS `catch` swallows the exception. -/
theorem search_failure_recovery (sqrtf : ℚ → ℚ) (data : List Point)
    (query : String) (promptRes : Option String) (msg : String) (st : SearchState)
    (hq : query ≠ "")
    (hk : truthyStr (if truthyStr st.apiKey then st.apiKey else promptRes) = true) :
    (doSearchFn sqrtf data query promptRes (Except.error msg) st).selected = st.selected ∧
    (doSearchFn sqrtf data query promptRes (Except.error msg) st).apiKey = none ∧
    (doSearchFn sqrtf data query promptRes (Except.error msg) st).alerts =
      st.alerts ++ ["Search failed: " ++ msg] := by
  have hq' : (query == "") = false := by
    rw [beq_eq_false_iff_ne]
    exact hq
  unfold doSearchFn
  rw [if_neg (by simp [hq'])]
  by_cases ht : truthyStr st.apiKey = true
  · rw [if_pos ht] at hk
    simp [ht, hk]
  · rw [if_neg ht] at hk
    simp only [Bool.not_eq_true] at ht
    simp [ht, hk]

theorem search_failure_recovery_witness :
    (("q" : String) ≠ "") ∧ truthyStr (some "k") = true ∧
      ((doSearchFn (fun _ => 1) [samplePointE] "q" none (Except.error "boom")
          ⟨{3}, some "k", []⟩).selected = {3} ∧
        (doSearchFn (fun _ => 1) [samplePointE] "q" none (Except.error "boom")
          ⟨{3}, some "k", []⟩).apiKey = none ∧
        (doSearchFn (fun _ => 1) [samplePointE] "q" none (Except.error "boom")
          ⟨{3}, some "k", []⟩).alerts = ["Search failed: " ++ "boom"]) := by
  refine ⟨by decide, rfl, ?_⟩
  exact search_failure_recovery (fun _ => 1) [samplePointE] "q" none "boom"
    ⟨{3}, some "k", []⟩ (by decide) rfl

/-- A 3D view with both rotation angles zero (reachable by dragging),
default zoom `1.2`, no offset, over a two-point dataset on a 100×100
canvas. -/
def renderBugEnv (cf sf : ℚ → ℚ) : Env :=
  { cosf := cf, sinf := sf, cw := 100, ch := 100, mode := Mode.mode3d
    view2d := ⟨1, 0, 0⟩, view3d := ⟨0, 0, 6/5, 0, 0⟩
    data := [samplePointA, samplePointB], filters := sampleFilters }

/-- C1 failing input: in 3D mode point `0` is strictly nearer to the
camera (depth 0) than point `1` (depth 3/5), neither is culled, yet the
ascending depth sort makes `render` draw the nearer point `0` FIRST and
the farther point `1` on top of it — the nearer point is not drawn
after the farther one, contradicting back-to-front occlusion. -/
theorem render_depth_order_bug (cf sf : ℚ → ℚ) (hc : cf 0 = 1) (hs : sf 0 = 0) :
    (renderDrawn (renderBugEnv cf sf)).map Prod.fst = [0, 1] ∧
    (getScreenPoint (renderBugEnv cf sf) samplePointA).depth <
      (getScreenPoint (renderBugEnv cf sf) samplePointB).depth ∧
    (getScreenPoint (renderBugEnv cf sf) samplePointA).culled = false ∧
    (getScreenPoint (renderBugEnv cf sf) samplePointB).culled = false := by
  have hA : getScreenPoint (renderBugEnv cf sf) samplePointA = ⟨50, 50, 0, false⟩ := by
    simp [getScreenPoint, renderBugEnv, project3d, samplePointA, hc, hs]
    norm_num
  have hB : getScreenPoint (renderBugEnv cf sf) samplePointB = ⟨50, 50, 3/5, false⟩ := by
    simp [getScreenPoint, renderBugEnv, project3d, samplePointB, hc, hs]
    norm_num
  have hdraw : renderDrawn (renderBugEnv cf sf) =
      [(0, ⟨50, 50, 0, false⟩), (1, ⟨50, 50, 3/5, false⟩)] := by
    have hvis : ∀ p, isVisibleE (renderBugEnv cf sf) p = true := by
      intro p
      simp [isVisibleE, isVisible, renderBugEnv, hasTypes, hasStates, truthyStr,
        samplePointA, samplePointB]
    rw [renderDrawn, renderSorted,
      if_pos (show (renderBugEnv cf sf).mode = Mode.mode3d from rfl), renderProjected]
    show (List.insertionSort depthLe
      (((withIdx 0 [samplePointA, samplePointB]).filter fun ip =>
          isVisibleE (renderBugEnv cf sf) ip.2).map
        fun ip => (ip.1, getScreenPoint (renderBugEnv cf sf) ip.2))).filter
        (fun it => !it.2.culled) =
      [(0, ⟨50, 50, 0, false⟩), (1, ⟨50, 50, 3/5, false⟩)]
    rw [show withIdx 0 [samplePointA, samplePointB] =
      [(0, samplePointA), (1, samplePointB)] from rfl]
    rw [List.filter_cons, List.filter_cons]
    simp only [hvis, List.filter_nil, if_true]
    simp only [List.map_cons, List.map_nil, hA, hB]
    simp [List.insertionSort, List.orderedInsert, depthLe]
    norm_num
  rw [hdraw, hA, hB]
  norm_num

theorem render_depth_order_bug_witness :
    (renderDrawn (renderBugEnv (fun _ => 1) (fun _ => 0))).map Prod.fst = [0, 1] ∧
    (getScreenPoint (renderBugEnv (fun _ => 1) (fun _ => 0)) samplePointA).depth <
      (getScreenPoint (renderBugEnv (fun _ => 1) (fun _ => 0)) samplePointB).depth ∧
    (getScreenPoint (renderBugEnv (fun _ => 1) (fun _ => 0)) samplePointA).culled = false ∧
    (getScreenPoint (renderBugEnv (fun _ => 1) (fun _ => 0)) samplePointB).culled = false :=
  render_depth_order_bug (fun _ => 1) (fun _ => 0) rfl rfl

/-! ## C10: every selection mutation keeps indices in range -/

theorem selectPoints_subset (env : Env) (rect : Rect) (addTo : Bool) (sel : Finset ℕ)
    (h : sel ⊆ Finset.range env.data.length) :
    selectPoints env rect addTo sel ⊆ Finset.range env.data.length := by
  intro i hi
  rcases (selectPoints_mem env rect addTo sel i).1 hi with ⟨-, hmem⟩ | ⟨p, hp, -⟩
  · exact h hmem
  · rcases List.get?_eq_some.1 hp with ⟨hlt, -⟩
    exact Finset.mem_range.2 hlt

theorem endDrag_selected_of_selecting (env : Env) (tc : Bool) (pt : ℚ × ℚ)
    (s : UIState) (hsel : s.selecting = true) :
    (endDrag env tc pt s).selected =
      match s.selectRect with
      | none => s.selected
      | some rect => selectPoints env rect s.addToSelection s.selected := by
  unfold endDrag
  by_cases hd : s.dragging <;> simp [hd, hsel]

theorem endDrag_selected_subset (env : Env) (tc : Bool) (pt : ℚ × ℚ) (s : UIState)
    (h : s.selected ⊆ Finset.range env.data.length) :
    (endDrag env tc pt s).selected ⊆ Finset.range env.data.length := by
  cases hsel : s.selecting with
  | true =>
    rw [endDrag_selected_of_selecting env tc pt s hsel]
    cases s.selectRect with
    | none => exact h
    | some rect => exact selectPoints_subset env rect s.addToSelection s.selected h
  | false =>
    rw [endDrag_selected_of_not_selecting env tc pt s hsel]
    split
    · exact Finset.empty_subset _
    · exact h

theorem doSearchSuccess_subset (sqrtf : ℚ → ℚ) (data : List Point) (q : List ℚ) :
    doSearchSuccess sqrtf data q ⊆ Finset.range data.length := fun i hi =>
  Finset.mem_range.2 ((doSearchSuccess_mem sqrtf data q i).1 hi).1

theorem doSearchFn_selected_cases (sqrtf : ℚ → ℚ) (data : List Point) (query : String)
    (promptRes : Option String) (fetchRes : Except String (List ℚ)) (st : SearchState) :
    (doSearchFn sqrtf data query promptRes fetchRes st).selected = st.selected ∨
    ∃ emb, (doSearchFn sqrtf data query promptRes fetchRes st).selected =
      doSearchSuccess sqrtf data emb := by
  unfold doSearchFn
  by_cases hq : (query == "") = true
  · rw [if_pos hq]
    exact Or.inl rfl
  · rw [if_neg hq]
    by_cases ht : truthyStr st.apiKey = true <;>
      by_cases hp2 : truthyStr promptRes = true <;>
        cases fetchRes <;>
          simp [ht, hp2]

theorem doSearchFn_selected_subset (sqrtf : ℚ → ℚ) (data : List Point) (query : String)
    (promptRes : Option String) (fetchRes : Except String (List ℚ)) (st : SearchState)
    (h : st.selected ⊆ Finset.range data.length) :
    (doSearchFn sqrtf data query promptRes fetchRes st).selected ⊆
      Finset.range data.length := by
  rcases doSearchFn_selected_cases sqrtf data query promptRes fetchRes st with hcase | ⟨emb, hcase⟩
  · rw [hcase]; exact h
  · rw [hcase]; exact doSearchSuccess_subset sqrtf data emb

/-- C10: every operation that mutates the selection keeps it a set of
valid indices into the loaded point array — rectangle selection only
adds loop indices below `data.length`, search only adds indices built
by mapping over `data`, and ending a gesture either reuses one of those
sets, keeps the old one, or clears. -/
theorem selection_indices_in_range (env : Env) (rect : Rect) (addTo : Bool)
    (sel : Finset ℕ) (tc : Bool) (pt : ℚ × ℚ) (s : UIState) (sqrtf : ℚ → ℚ)
    (query : String) (promptRes : Option String) (fetchRes : Except String (List ℚ))
    (st : SearchState)
    (h1 : sel ⊆ Finset.range env.data.length)
    (h2 : s.selected ⊆ Finset.range env.data.length)
    (h3 : st.selected ⊆ Finset.range env.data.length) :
    selectPoints env rect addTo sel ⊆ Finset.range env.data.length ∧
    (endDrag env tc pt s).selected ⊆ Finset.range env.data.length ∧
    (doSearchFn sqrtf env.data query promptRes fetchRes st).selected ⊆
      Finset.range env.data.length :=
  ⟨selectPoints_subset env rect addTo sel h1,
    endDrag_selected_subset env tc pt s h2,
    doSearchFn_selected_subset sqrtf env.data query promptRes fetchRes st h3⟩

theorem selection_indices_in_range_witness :
    (({0} : Finset ℕ) ⊆ Finset.range (mkEnv2d [samplePointA]).data.length) ∧
      (selectPoints (mkEnv2d [samplePointA]) ⟨0, 0, 1000, 1000⟩ false {0} ⊆
        Finset.range (mkEnv2d [samplePointA]).data.length ∧
      (endDrag (mkEnv2d [samplePointA]) true (0, 0)
          ⟨true, false, none, (0, 0), (0, 0), none, {0}, false⟩).selected ⊆
        Finset.range (mkEnv2d [samplePointA]).data.length ∧
      (doSearchFn (fun _ => 1) (mkEnv2d [samplePointA]).data "q" none
          (Except.error "boom") ⟨{0}, some "k", []⟩).selected ⊆
        Finset.range (mkEnv2d [samplePointA]).data.length) :=
  ⟨by decide,
    selection_indices_in_range (mkEnv2d [samplePointA]) ⟨0, 0, 1000, 1000⟩ false {0}
      true (0, 0) ⟨true, false, none, (0, 0), (0, 0), none, {0}, false⟩ (fun _ => 1)
      "q" none (Except.error "boom") ⟨{0}, some "k", []⟩
      (by decide) (by decide) (by decide)⟩

end Doppelgangers
